import Mathlib

/-!
Shallow embedding of the PuppyCloud node (src/rust/src/main.rs, src/rust/src/db.rs).

Byte strings are `List Nat` with each element a byte value (reduced mod 256 where
the code manipulates machine words).  Machine arithmetic is `Nat`/`Int` with the
wrap-around written out as `% 2 ^ w`.  Fallible handlers return `Except`;
a Rust panic is a distinguished result constructor.  In-memory maps
(sessions, invites) and SQL tables are association lists whose lookup takes the
first matching row, matching the primary-key uniqueness of the schema.
-/

namespace PuppyCloud

/-! ### 32-bit word arithmetic (the BLAKE3 compression works on u32 words) -/

def u32 (x : Nat) : Nat := x % 4294967296

/-- Right rotation of a 32-bit word, `x.rotate_right(n)` for `x < 2^32`. -/
def rotr32 (x n : Nat) : Nat := u32 (Nat.lor (x >>> n) (x <<< (32 - n)))

/-! ### BLAKE3 (the `blake3` crate's `hash` function, 32-byte output)

`chunk_id` in main.rs is `blake3::hash(data).to_hex().to_string()`.  The hash is
embedded in full: compression function, chunk chaining and the binary tree over
1024-byte chunks, following the published BLAKE3 specification that the crate
implements. -/

def blakeIV : List Nat :=
  [0x6A09E667, 0xBB67AE85, 0x3C6EF372, 0xA54FF53A,
   0x510E527F, 0x9B05688C, 0x1F83D9AB, 0x5BE0CD19]

def CHUNK_START : Nat := 1
def CHUNK_END : Nat := 2
def PARENT : Nat := 4
def ROOT : Nat := 8

/-- The quarter-round `g` acting on positions `ai bi ci di` of a 16-word state. -/
def gMix (st : List Nat) (ai bi ci di : Nat) (mx my : Nat) : List Nat :=
  let a := st.getD ai 0
  let b := st.getD bi 0
  let c := st.getD ci 0
  let d := st.getD di 0
  let a := (a + b + mx) % 4294967296
  let d := rotr32 (Nat.xor d a) 16
  let c := (c + d) % 4294967296
  let b := rotr32 (Nat.xor b c) 12
  let a := (a + b + my) % 4294967296
  let d := rotr32 (Nat.xor d a) 8
  let c := (c + d) % 4294967296
  let b := rotr32 (Nat.xor b c) 7
  (((st.set ai a).set bi b).set ci c).set di d

/-- One round: `g` over the four columns, then the four diagonals. -/
def roundFn (st m : List Nat) : List Nat :=
  let st := gMix st 0 4 8 12 (m.getD 0 0) (m.getD 1 0)
  let st := gMix st 1 5 9 13 (m.getD 2 0) (m.getD 3 0)
  let st := gMix st 2 6 10 14 (m.getD 4 0) (m.getD 5 0)
  let st := gMix st 3 7 11 15 (m.getD 6 0) (m.getD 7 0)
  let st := gMix st 0 5 10 15 (m.getD 8 0) (m.getD 9 0)
  let st := gMix st 1 6 11 12 (m.getD 10 0) (m.getD 11 0)
  let st := gMix st 2 7 8 13 (m.getD 12 0) (m.getD 13 0)
  gMix st 3 4 9 14 (m.getD 14 0) (m.getD 15 0)

def permuteMsg (m : List Nat) : List Nat :=
  [m.getD 2 0, m.getD 6 0, m.getD 3 0, m.getD 10 0,
   m.getD 7 0, m.getD 0 0, m.getD 4 0, m.getD 13 0,
   m.getD 1 0, m.getD 11 0, m.getD 12 0, m.getD 5 0,
   m.getD 9 0, m.getD 14 0, m.getD 15 0, m.getD 8 0]

/-- The BLAKE3 compression, returning the 8-word chaining value
(the 32-byte digest only ever uses these first 8 output words). -/
def compress (cv m : List Nat) (counter blockLen flags : Nat) : List Nat :=
  let st : List Nat :=
    cv ++ [blakeIV.getD 0 0, blakeIV.getD 1 0, blakeIV.getD 2 0, blakeIV.getD 3 0,
           counter % 4294967296, (counter / 4294967296) % 4294967296,
           blockLen % 4294967296, flags % 4294967296]
  let st := roundFn st m
  let m := permuteMsg m
  let st := roundFn st m
  let m := permuteMsg m
  let st := roundFn st m
  let m := permuteMsg m
  let st := roundFn st m
  let m := permuteMsg m
  let st := roundFn st m
  let m := permuteMsg m
  let st := roundFn st m
  let m := permuteMsg m
  let st := roundFn st m
  (List.range 8).map (fun i => Nat.xor (st.getD i 0) (st.getD (i + 8) 0))

/-- Little-endian u32 read at byte offset `off`, zero-padded past the end. -/
def wordAt (b : List Nat) (off : Nat) : Nat :=
  (b.getD off 0) % 256 + 256 * ((b.getD (off + 1) 0) % 256) +
    65536 * ((b.getD (off + 2) 0) % 256) + 16777216 * ((b.getD (off + 3) 0) % 256)

/-- The 16 message words of one (zero-padded) 64-byte block. -/
def wordsOfBlock (b : List Nat) : List Nat :=
  (List.range 16).map (fun i => wordAt b (4 * i))

/-- Split into groups of `n` (capacity countdown keeps the recursion structural).
`groupBytes n [] = [[]]`: an empty input is one empty group, exactly as BLAKE3
treats an empty chunk as a single zero-length block. -/
def groupGo (n : Nat) (acc : List α) (cap : Nat) : List α → List (List α)
  | [] => [acc.reverse]
  | x :: xs =>
    match cap with
    | 0 => acc.reverse :: groupGo n [x] (n - 1) xs
    | cap' + 1 => groupGo n (x :: acc) cap' xs

def groupBytes (n : Nat) (l : List α) : List (List α) := groupGo n [] n l

/-- Chain the blocks of one chunk: CHUNK_START on the first block, CHUNK_END
(plus ROOT if this chunk is the whole tree) on the last. -/
def chunkBlocksGo (counter : Nat) (isRoot : Bool) (cv : List Nat) (first : Bool) :
    List (List Nat) → List Nat
  | [] => cv
  | [b] =>
    compress cv (wordsOfBlock b) counter b.length
      ((if first then CHUNK_START else 0) + CHUNK_END + (if isRoot then ROOT else 0))
  | b :: b' :: rest =>
    chunkBlocksGo counter isRoot
      (compress cv (wordsOfBlock b) counter b.length (if first then CHUNK_START else 0))
      false (b' :: rest)

/-- Chaining value of one ≤1024-byte chunk. -/
def chunkCV (counter : Nat) (isRoot : Bool) (bytes : List Nat) : List Nat :=
  chunkBlocksGo counter isRoot blakeIV true (groupBytes 64 bytes)

def parentCV (l r : List Nat) (isRoot : Bool) : List Nat :=
  compress blakeIV (l ++ r) 0 64 (PARENT + (if isRoot then ROOT else 0))

/-- Left subtree size: the largest power of two strictly below the chunk count. -/
def leftLen (n : Nat) : Nat := 2 ^ Nat.log2 (n - 1)

/-- Non-root chaining value of a subtree of chunks starting at chunk index
`start`.  `fuel` bounds the recursion depth; it is called with fuel ≥ the chunk
count, which the splits strictly decrease, so the 0 case is unreachable. -/
def subtreeCV (fuel : Nat) (start : Nat) (chunks : List (List Nat)) : List Nat :=
  match fuel with
  | 0 => List.replicate 8 0
  | fuel + 1 =>
    match chunks with
    | [] => List.replicate 8 0
    | [c] => chunkCV start false c
    | c :: c' :: rest =>
      let cs := c :: c' :: rest
      let L := leftLen cs.length
      parentCV (subtreeCV fuel start (cs.take L)) (subtreeCV fuel (start + L) (cs.drop L)) false

/-- `blake3::hash`: 32 little-endian bytes of the root chaining value. -/
def bytesOfWords : List Nat → List Nat
  | [] => []
  | w :: rest =>
    w % 256 :: (w / 256) % 256 :: (w / 65536) % 256 :: (w / 16777216) % 256 :: bytesOfWords rest

def blake3Hash (input : List Nat) : List Nat :=
  let chunks := groupBytes 1024 input
  let cv :=
    match chunks with
    | [] => List.replicate 8 0
    | [c] => chunkCV 0 true c
    | c :: c' :: rest =>
      let cs := c :: c' :: rest
      let L := leftLen cs.length
      parentCV (subtreeCV cs.length 0 (cs.take L)) (subtreeCV cs.length L (cs.drop L)) true
  bytesOfWords cv

/-! ### Chunk store (main.rs: `chunk_id`, `chunk_path`, `upload_file`, `get_chunk`)

Identifiers travel as UTF-8 byte lists (`List Nat`): the hex digest is ASCII, and
`chunk_path` slices the id string at BYTE positions 2 and 4, panicking when an
index is out of bounds or not a character boundary, exactly as Rust `&id[0..2]`
and `&id[2..4]` do. -/

def hexDigit (n : Nat) : Nat := if n < 10 then 48 + n else 87 + n

/-- Lowercase hex of a byte string, as ASCII bytes (`Hash::to_hex`). -/
def hexOfBytes : List Nat → List Nat
  | [] => []
  | b :: rest => hexDigit ((b % 256) / 16) :: hexDigit (b % 16) :: hexOfBytes rest

/-- `chunk_id(data) = blake3::hash(data).to_hex().to_string()`. -/
def chunk_id (data : List Nat) : List Nat := hexOfBytes (blake3Hash data)

/-- Rust `str::is_char_boundary` on the UTF-8 bytes. -/
def isCharBoundary (bs : List Nat) (i : Nat) : Bool :=
  i = 0 || i = bs.length ||
    (decide (i < bs.length) && !(128 ≤ bs.getD i 0 && bs.getD i 0 < 192))

/-- The path of a chunk relative to the data root:
`root.join(&id[0..2]).join(&id[2..4]).join(id)`.  `none` is the Rust panic of
the byte-slicing when `id` has no char boundary at 2 and 4. -/
def chunk_path (id : List Nat) : Option (List (List Nat)) :=
  if isCharBoundary id 2 && isCharBoundary id 4 then
    some [id.take 2, (id.drop 2).take 2, id]
  else
    none

/-- The on-disk chunk files under the data root: path components ↦ contents. -/
abbrev Fs : Type := List (List (List Nat) × List Nat)

structure ChunkRef where
  id : List Nat
  size : Nat
  deriving DecidableEq, Repr

structure FileManifest where
  total_size : Nat
  chunks : List ChunkRef
  mime : Option String
  created_ts : Int
  deriving DecidableEq, Repr

structure HErr where
  status : Nat
  msg : String
  deriving DecidableEq, Repr

inductive UploadResult
  /-- 200 with the updated chunk store and the manifest JSON body. -/
  | ok (fs : Fs) (man : FileManifest)
  /-- 400 "missing file". -/
  | badRequest (msg : String)
  /-- Rust panic (not reachable: the id is always 64 ASCII bytes). -/
  | panicked

/-- `upload_file` after multipart collection: `file_bytes` is the `file` field,
`mime` the optional `mime` field.  `total_size` is `len as u64` and the sole
chunk's `size` is `len as u32`, both casts written out. -/
def upload_file (fs : Fs) (file_bytes : List Nat) (mime : Option String)
    (created : Int) : UploadResult :=
  if file_bytes = [] then
    .badRequest "missing file"
  else
    let id := chunk_id file_bytes
    match chunk_path id with
    | none => .panicked
    | some p =>
      .ok ((p, file_bytes) :: fs)
        { total_size := file_bytes.length % 18446744073709551616,
          chunks := [{ id := id, size := file_bytes.length % 4294967296 }],
          mime := mime,
          created_ts := created }

inductive ChunkResult
  /-- `(StatusCode::OK, Bytes::from(data))`. -/
  | found (data : List Nat)
  /-- `(StatusCode::NOT_FOUND, "not found")`. -/
  | notFound
  /-- Rust panic inside `chunk_path` (id byte-slice out of bounds). -/
  | panicked
  deriving DecidableEq, Repr

/-- `get_chunk`: compute the path from the id, return the file if it exists,
else 404.  The path computation itself can panic. -/
def get_chunk (fs : Fs) (id : List Nat) : ChunkResult :=
  match chunk_path id with
  | none => .panicked
  | some p =>
    match fs.lookup p with
    | some data => .found data
    | none => .notFound

/-! ### Persistent store (db.rs)

Each SQL table is a list of rows; the primary key makes at most one row match,
and the `ON CONFLICT DO UPDATE` upserts rewrite that row in place, leaving every
column the `SET` clause does not mention untouched. -/

/-- `peer_addrs` table: `(peer_id, addr, last_seen)`, key `(peer_id, addr)`. -/
abbrev PeerAddrs : Type := List (String × String × Int)

def lookupPeerAddr (db : PeerAddrs) (pid addr : String) : Option Int :=
  (db.find? (fun r => r.1 == pid && r.2.1 == addr)).map (fun r => r.2.2)

/-- `INSERT INTO peer_addrs ... ON CONFLICT(peer_id, addr) DO UPDATE SET
last_seen = excluded.last_seen`. -/
def upsert_peer_addr (db : PeerAddrs) (pid addr : String) (last_seen : Int) : PeerAddrs :=
  match db with
  | [] => [(pid, addr, last_seen)]
  | r :: rest =>
    if r.1 == pid && r.2.1 == addr then
      (r.1, r.2.1, last_seen) :: rest
    else
      r :: upsert_peer_addr rest pid addr last_seen

/-- Cast of a `usize` to `i64` (`limit as i64`): two's-complement wrap. -/
def toI64 (n : Nat) : Int :=
  if n % 18446744073709551616 < 9223372036854775808 then
    (n % 18446744073709551616 : Nat)
  else
    (n % 18446744073709551616 : Nat) - 18446744073709551616

/-- Newest-first row order of `ORDER BY last_seen DESC`. -/
def laterFirst (a b : String × String × Int) : Prop := b.2.2 ≤ a.2.2

instance : DecidableRel laterFirst := fun a b => Int.decLe b.2.2 a.2.2

instance : IsTotal (String × String × Int) laterFirst :=
  ⟨fun a b => (Int.le_total b.2.2 a.2.2).elim Or.inl Or.inr⟩

instance : IsTrans (String × String × Int) laterFirst :=
  ⟨fun _ _ _ h h' => le_trans h' h⟩

/-- The rows selected by `SELECT peer_id, addr FROM peer_addrs [WHERE last_seen
>= min] ORDER BY last_seen DESC LIMIT (limit as i64)`.  A negative bound (the
cast of a `usize ≥ 2^63`) disables the LIMIT clause, per SQLite. -/
def recentSelection (db : PeerAddrs) (limit : Nat) (min_last_seen : Option Int) :
    PeerAddrs :=
  let filtered : PeerAddrs := match min_last_seen with
    | some m => db.filter (fun r => m ≤ r.2.2)
    | none => db
  let sorted := filtered.insertionSort laterFirst
  if toI64 limit < 0 then sorted else sorted.take (toI64 limit).toNat

def get_recent_peer_addrs (db : PeerAddrs) (limit : Nat) (min_last_seen : Option Int) :
    List (String × String) :=
  (recentSelection db limit min_last_seen).map (fun r => (r.1, r.2.1))

/-- `local_keys` table: `(name, key, created_ts)`, key `name`. -/
abbrev LocalKeys : Type := List (String × List Nat × Int)

def lookupLocalKey (db : LocalKeys) (name : String) : Option (List Nat × Int) :=
  (db.find? (fun r => r.1 == name)).map (fun r => r.2)

/-- `INSERT INTO local_keys ... ON CONFLICT(name) DO UPDATE SET key =
excluded.key` — `created_ts` is not in the SET clause. -/
def set_local_key (db : LocalKeys) (name : String) (key_bytes : List Nat)
    (created_ts : Int) : LocalKeys :=
  match db with
  | [] => [(name, key_bytes, created_ts)]
  | r :: rest =>
    if r.1 == name then
      (r.1, key_bytes, r.2.2) :: rest
    else
      r :: set_local_key rest name key_bytes created_ts

/-- `users` table row. -/
structure UserRow where
  username : String
  pwd_hash : List Nat
  salt : List Nat
  created_ts : Int
  expires_ts : Option Int
  deriving DecidableEq, Repr

abbrev Users : Type := List UserRow

/-- `SELECT ... FROM users WHERE username = ?1` (first row). -/
def get_user (db : Users) (username : String) : Option UserRow :=
  db.find? (fun r => r.username == username)

/-- `INSERT INTO users ... ON CONFLICT(username) DO UPDATE SET pwd_hash = ...,
salt = ..., expires_ts = ...` — `created_ts` is not in the SET clause. -/
def upsert_user (db : Users) (username : String) (pwd_hash salt : List Nat)
    (created_ts : Int) (expires_ts : Option Int) : Users :=
  match db with
  | [] => [⟨username, pwd_hash, salt, created_ts, expires_ts⟩]
  | r :: rest =>
    if r.username == username then
      ⟨r.username, pwd_hash, salt, r.created_ts, expires_ts⟩ :: rest
    else
      r :: upsert_user rest username pwd_hash salt created_ts expires_ts

/-- `UPDATE users SET expires_ts = ?2 WHERE username = ?1`. -/
def set_user_expiry (db : Users) (username : String) (expires_ts : Option Int) : Users :=
  db.map (fun r => if r.username == username then { r with expires_ts := expires_ts } else r)

/-! ### Auth/session layer (main.rs: `RequireAuth`, `post_set_password`,
`post_login`)

Argon2 and the PHC salt decoding are third-party crates; they enter the model as
function parameters (`argon : password → salt → hash bytes`,
`saltDecode : stored salt bytes → Option salt string`, the latter `none` when
`from_utf8`/`SaltString::from_b64` fails).  The OS randomness (salt string, the
32 session-id bytes) enters as explicit arguments. -/

/-- The 25 code points of Unicode `White_Space` (Rust `char::is_whitespace`). -/
def rustIsWhitespace (c : Char) : Bool :=
  c.toNat ∈ [0x9, 0xA, 0xB, 0xC, 0xD, 0x20, 0x85, 0xA0, 0x1680,
    0x2000, 0x2001, 0x2002, 0x2003, 0x2004, 0x2005, 0x2006, 0x2007,
    0x2008, 0x2009, 0x200A, 0x2028, 0x2029, 0x202F, 0x205F, 0x3000]

/-- Rust `str::trim` on the character list. -/
def rustTrim (s : List Char) : List Char :=
  ((s.dropWhile rustIsWhitespace).reverse.dropWhile rustIsWhitespace).reverse

/-- UTF-8 encoding of one scalar value. -/
def utf8EncodeChar (c : Char) : List Nat :=
  let n := c.toNat
  if n < 128 then [n]
  else if n < 2048 then [192 + n / 64, 128 + n % 64]
  else if n < 65536 then [224 + n / 4096, 128 + (n / 64) % 64, 128 + n % 64]
  else [240 + n / 262144, 128 + (n / 4096) % 64, 128 + (n / 64) % 64, 128 + n % 64]

/-- Rust `str::as_bytes` / `str::len` live on these bytes. -/
def utf8Bytes (s : String) : List Nat := s.data.flatMap utf8EncodeChar

/-- The URL_SAFE alphabet of the `base64` crate. -/
def b64Alphabet : String :=
  "ABCDEFGHIJKLMNOPQRSTUVWXYZabcdefghijklmnopqrstuvwxyz0123456789-_"

def b64Char (n : Nat) : Char := b64Alphabet.data.getD n 'A'

/-- `URL_SAFE_NO_PAD.encode`: 4 characters per 3 bytes, a short final quantum
produces 2 or 3 characters and no padding. -/
def b64urlChars : List Nat → List Char
  | b0 :: b1 :: b2 :: rest =>
    b64Char ((b0 % 256) / 4) :: b64Char ((b0 % 4) * 16 + (b1 % 256) / 16) ::
      b64Char ((b1 % 16) * 4 + (b2 % 256) / 64) :: b64Char (b2 % 64) :: b64urlChars rest
  | [b0, b1] =>
    [b64Char ((b0 % 256) / 4), b64Char ((b0 % 4) * 16 + (b1 % 256) / 16),
     b64Char ((b1 % 16) * 4)]
  | [b0] => [b64Char ((b0 % 256) / 4), b64Char ((b0 % 4) * 16)]
  | [] => []

def b64url (bs : List Nat) : String := ⟨b64urlChars bs⟩

/-- In-memory session map `session_id → username` (insertion shadows). -/
abbrev Sessions : Type := List (String × String)

/-- Rust `cookies.split(';')` (keeps empty pieces; `""` splits to `[""]`). -/
def splitSemi : List Char → List (List Char)
  | [] => [[]]
  | c :: rest =>
    if c = ';' then
      [] :: splitSemi rest
    else
      match splitSemi rest with
      | [] => [[c]]
      | piece :: more => (c :: piece) :: more

/-- `c.trim().strip_prefix("sid=")`. -/
def sidOfPiece (piece : List Char) : Option (List Char) :=
  let t := rustTrim piece
  if t.take 4 = ['s', 'i', 'd', '='] then some (t.drop 4) else none

/-- The `RequireAuth` extractor: first `sid=` cookie component, looked up in the
session map.  A missing `Cookie` header is the empty string (`unwrap_or("")`). -/
def require_auth (sessions : Sessions) (cookieHeader : String) : Except HErr String :=
  match (splitSemi cookieHeader.data).findSome? sidOfPiece with
  | none => .error ⟨401, "no session"⟩
  | some sid =>
    match sessions.lookup (String.mk sid) with
    | some user => .ok user
    | none => .error ⟨401, "invalid session"⟩

structure SetPasswordReq where
  username : String
  password : String
  expires_ts : Option Int

/-- `post_set_password`.  `saltStr` is the freshly generated `SaltString`;
`hashFn` is `Argon2::default().hash_password` restricted to its output bytes. -/
def post_set_password (hashFn : String → String → List Nat) (saltStr : String)
    (db : Users) (created_ts : Int) (req : SetPasswordReq) : Except HErr Users :=
  if rustTrim req.username.data = [] ∨ (utf8Bytes req.password).length < 8 then
    .error ⟨400, "username and 8+ char password required"⟩
  else
    .ok (upsert_user db req.username (hashFn req.password saltStr)
      (utf8Bytes saltStr) created_ts req.expires_ts)

structure LoginReq where
  username : String
  password : String

/-- `if let Some(exp) = user.expires_ts { now > exp }`. -/
def loginExpired (expires_ts : Option Int) (now : Int) : Bool :=
  match expires_ts with
  | some exp => now > exp
  | none => false

/-- `post_login`.  On success the fresh session id (base64url of the 32 random
bytes `sidBytes`) is inserted into the session map; the result carries the new
map and the sid the `Set-Cookie` header uses. -/
def post_login (argon : String → String → List Nat)
    (saltDecode : List Nat → Option String) (db : Users) (sessions : Sessions)
    (sidBytes : List Nat) (now : Int) (req : LoginReq) :
    Except HErr (Sessions × String) :=
  match get_user db req.username with
  | none => .error ⟨401, "invalid credentials"⟩
  | some user =>
    if loginExpired user.expires_ts now then
      .error ⟨401, "password expired"⟩
    else
      match saltDecode user.salt with
      | none => .error ⟨500, "salt decode failed"⟩
      | some saltStr =>
        if argon req.password saltStr = user.pwd_hash then
          .ok ((b64url sidBytes, req.username) :: sessions, b64url sidBytes)
        else
          .error ⟨401, "invalid credentials"⟩

/-! ### P2P endpoints (main.rs: `post_p2p_dial`, `post_p2p_invite` and their
routes, both of which carry a `RequireAuth` extractor) -/

/-- In-memory invite map `password → expiry` (insertion shadows). -/
abbrev Invites : Type := List (String × Int)

structure DialReq where
  addr : String
  password : String

structure InviteReq where
  password : String
  expires : Int

/-- The 200 body of `/p2p/dial`: `{status, addr}` with `status = "dialing"`. -/
structure DialOk where
  status : String
  addr : String
  deriving DecidableEq, Repr

/-- The 200 body of `/p2p/invite`: `{addr, password, expires}`. -/
structure InviteOk where
  addr : String
  password : String
  expires : Int
  deriving DecidableEq, Repr

/-- `post_p2p_dial` handler body: returns the response and the dial queue after
the call (the bounded channel is the engine's inbox; a send appends).  The send
only errs if the engine task is gone, which cannot happen while serving. -/
def post_p2p_dial (invites : Invites) (queue : List String) (now : Int)
    (req : DialReq) : Except HErr DialOk × List String :=
  match invites.lookup req.password with
  | some exp =>
    if now ≤ exp then
      (.ok ⟨"dialing", req.addr⟩, queue ++ [req.addr])
    else
      (.error ⟨401, "invalid or expired invite"⟩, queue)
  | none => (.error ⟨401, "invalid or expired invite"⟩, queue)

/-- The `/p2p/dial` route: the closure takes a `RequireAuth` extractor, so the
handler body only runs for a request with a valid session cookie. -/
def route_p2p_dial (sessions : Sessions) (cookieHeader : String) (invites : Invites)
    (queue : List String) (now : Int) (req : DialReq) :
    Except HErr DialOk × List String :=
  match require_auth sessions cookieHeader with
  | .error e => (.error e, queue)
  | .ok _ => post_p2p_dial invites queue now req

/-- `post_p2p_invite` handler body: the first listener address is fetched
BEFORE the invite is stored, so an empty address list returns 500 with the
invite map untouched. -/
def post_p2p_invite (addrs : List String) (invites : Invites) (req : InviteReq) :
    Except HErr InviteOk × Invites :=
  match addrs.head? with
  | none => (.error ⟨500, "no p2p address"⟩, invites)
  | some addr =>
    (.ok ⟨addr, req.password, req.expires⟩, (req.password, req.expires) :: invites)

/-- The `/p2p/invite` route (auth-gated like `/p2p/dial`). -/
def route_p2p_invite (sessions : Sessions) (cookieHeader : String)
    (addrs : List String) (invites : Invites) (req : InviteReq) :
    Except HErr InviteOk × Invites :=
  match require_auth sessions cookieHeader with
  | .error e => (.error e, invites)
  | .ok _ => post_p2p_invite addrs invites req

/-! ### Helper lemmas -/

theorem compress_length (cv m : List Nat) (counter blockLen flags : Nat) :
    (compress cv m counter blockLen flags).length = 8 := by
  simp [compress]

theorem chunkBlocksGo_length (blocks : List (List Nat)) :
    ∀ (counter : Nat) (isRoot : Bool) (cv : List Nat) (first : Bool),
      cv.length = 8 → (chunkBlocksGo counter isRoot cv first blocks).length = 8 := by
  induction blocks with
  | nil => intro counter isRoot cv first h; simpa [chunkBlocksGo] using h
  | cons b rest ih =>
    intro counter isRoot cv first h
    cases rest with
    | nil => simp [chunkBlocksGo, compress_length]
    | cons b' rest' => simpa [chunkBlocksGo] using ih counter isRoot _ false (compress_length ..)

theorem chunkCV_length (counter : Nat) (isRoot : Bool) (bytes : List Nat) :
    (chunkCV counter isRoot bytes).length = 8 :=
  chunkBlocksGo_length _ _ _ _ _ (by decide)

theorem parentCV_length (l r : List Nat) (isRoot : Bool) :
    (parentCV l r isRoot).length = 8 :=
  compress_length ..

theorem bytesOfWords_length (ws : List Nat) :
    (bytesOfWords ws).length = 4 * ws.length := by
  induction ws with
  | nil => simp [bytesOfWords]
  | cons w rest ih => simp [bytesOfWords, ih]; omega

theorem blake3Hash_length (input : List Nat) : (blake3Hash input).length = 32 := by
  unfold blake3Hash
  cases h : groupBytes 1024 input with
  | nil => simp [bytesOfWords_length]
  | cons c rest =>
    cases rest with
    | nil => simp [bytesOfWords_length, chunkCV_length]
    | cons c' rest' => simp [bytesOfWords_length, parentCV_length]

theorem hexOfBytes_length (bs : List Nat) : (hexOfBytes bs).length = 2 * bs.length := by
  induction bs with
  | nil => simp [hexOfBytes]
  | cons b rest ih => simp [hexOfBytes, ih]; omega

/-- Every output byte of `hexOfBytes` is an ASCII lowercase hex digit. -/
theorem hexOfBytes_mem (bs : List Nat) :
    ∀ d ∈ hexOfBytes bs, (48 ≤ d ∧ d ≤ 57) ∨ (97 ≤ d ∧ d ≤ 102) := by
  induction bs with
  | nil => simp [hexOfBytes]
  | cons b rest ih =>
    intro d hd
    simp only [hexOfBytes, List.mem_cons] at hd
    have hdig : ∀ n, n < 16 → (48 ≤ hexDigit n ∧ hexDigit n ≤ 57) ∨
        (97 ≤ hexDigit n ∧ hexDigit n ≤ 102) := by
      intro n hn
      unfold hexDigit
      split <;> omega
    rcases hd with h | h | h
    · exact h ▸ hdig _ (Nat.div_lt_of_lt_mul (by omega))
    · exact h ▸ hdig _ (Nat.mod_lt _ (by omega))
    · exact ih d h

theorem chunk_id_length (B : List Nat) : (chunk_id B).length = 64 := by
  simp [chunk_id, hexOfBytes_length, blake3Hash_length]

/-- The chunk id is 64 ASCII bytes, so both byte slices of `chunk_path` are at
valid char boundaries and the path computation succeeds. -/
theorem chunk_path_chunk_id (B : List Nat) :
    chunk_path (chunk_id B) =
      some [(chunk_id B).take 2, ((chunk_id B).drop 2).take 2, chunk_id B] := by
  have hlen := chunk_id_length B
  have hascii : ∀ i, i < 64 → ¬(128 ≤ (chunk_id B).getD i 0 ∧ (chunk_id B).getD i 0 < 192) := by
    intro i hi
    have hmem : (chunk_id B).getD i 0 ∈ chunk_id B := by
      have hi' : i < (chunk_id B).length := by omega
      rw [List.getD_eq_getElem?_getD, List.getElem?_eq_getElem hi']
      exact List.getElem?_mem (List.getElem?_eq_getElem hi')
    rcases hexOfBytes_mem (blake3Hash B) _ hmem with h | h <;> omega
  have hb : ∀ i, i < 64 → isCharBoundary (chunk_id B) i = true := by
    intro i hi
    simp only [isCharBoundary, Bool.or_eq_true, decide_eq_true_eq, Bool.and_eq_true,
      Bool.not_eq_true']
    refine Or.inr ⟨by omega, ?_⟩
    cases hd1 : decide (128 ≤ (chunk_id B).getD i 0) with
    | false => rfl
    | true =>
      cases hd2 : decide ((chunk_id B).getD i 0 < 192) with
      | false => rfl
      | true => exact absurd ⟨of_decide_eq_true hd1, of_decide_eq_true hd2⟩ (hascii i hi)
  unfold chunk_path
  rw [hb 2 (by omega), hb 4 (by omega)]
  rfl

theorem b64Char_mem (n : Nat) : b64Char n ∈ b64Alphabet.data := by
  unfold b64Char
  rw [List.getD_eq_getElem?_getD]
  rcases h : b64Alphabet.data[n]? with _ | c
  · simp [h]; decide
  · simpa [h] using List.getElem?_mem h

theorem b64urlChars_length (bs : List Nat) :
    (b64urlChars bs).length = (bs.length * 4 + 2) / 3 := by
  induction bs using b64urlChars.induct with
  | case1 b0 b1 b2 rest ih => simp only [b64urlChars, List.length_cons, ih]; omega
  | case2 b0 b1 => simp [b64urlChars]
  | case3 b0 => simp [b64urlChars]
  | case4 => simp [b64urlChars]

theorem b64urlChars_mem (bs : List Nat) :
    ∀ c ∈ b64urlChars bs, c ∈ b64Alphabet.data := by
  induction bs using b64urlChars.induct with
  | case1 b0 b1 b2 rest ih =>
    intro c hc
    simp only [b64urlChars, List.mem_cons] at hc
    rcases hc with h | h | h | h | h
    · exact h ▸ b64Char_mem _
    · exact h ▸ b64Char_mem _
    · exact h ▸ b64Char_mem _
    · exact h ▸ b64Char_mem _
    · exact ih c h
  | case2 b0 b1 =>
    intro c hc
    rcases hc with _ | ⟨_, _ | ⟨_, _ | ⟨_, h⟩⟩⟩ <;> first | exact b64Char_mem _ | cases h
  | case3 b0 =>
    intro c hc
    rcases hc with _ | ⟨_, _ | ⟨_, h⟩⟩ <;> first | exact b64Char_mem _ | cases h
  | case4 => intro c hc; cases hc

/-- `get_user` after `set_user_expiry` on the same name: the row (if any) with
its expiry replaced. -/
theorem get_user_set_user_expiry (db : Users) (u : String) (e : Option Int) :
    get_user (set_user_expiry db u e) u =
      (get_user db u).map (fun r => { r with expires_ts := e }) := by
  induction db with
  | nil => simp [get_user, set_user_expiry]
  | cons r rest ih =>
    by_cases h : r.username == u
    · simp [get_user, set_user_expiry, List.find?, h]
    · simp only [get_user, set_user_expiry, List.map_cons, List.find?, h] at ih ⊢
      simpa [h] using ih

/-! ### Claim theorems -/

/-- C1 (counterexample): a `/p2p/dial` request with no session cookie and a
password that is in the invite map with `now ≤ expiry` gets 401 with nothing
enqueued — the route carries a `RequireAuth` extractor, refuting the claim that
the endpoint requires no session and answers 200 whenever the password is
valid. -/
theorem p2p_dial_no_session_counterexample :
    (List.lookup "p" ([("p", (10 : Int))] : Invites) = some 10 ∧ (0 : Int) ≤ 10) ∧
    route_p2p_dial [] "" [("p", (10 : Int))] [] 0 ⟨"/ip4/127.0.0.1/tcp/1", "p"⟩ =
      (.error ⟨401, "no session"⟩, []) := by
  constructor
  · exact ⟨rfl, by decide⟩
  · rfl

/-- C1 (amended): `/p2p/dial` is session-gated.  A request that fails the
`RequireAuth` extractor gets its 401 with the queue untouched; a request with a
valid session gets 200 `{status:"dialing", addr}` with the address enqueued iff
the password is in the invite map with `now ≤ expiry`, and otherwise 401 with
the queue untouched. -/
theorem route_p2p_dial_spec (sessions : Sessions) (cookie : String)
    (invites : Invites) (queue : List String) (now : Int) (req : DialReq) :
    (∀ e, require_auth sessions cookie = .error e →
      route_p2p_dial sessions cookie invites queue now req = (.error e, queue)) ∧
    (∀ u, require_auth sessions cookie = .ok u →
      ((∃ exp, invites.lookup req.password = some exp ∧ now ≤ exp) →
        route_p2p_dial sessions cookie invites queue now req =
          (.ok ⟨"dialing", req.addr⟩, queue ++ [req.addr])) ∧
      ((¬ ∃ exp, invites.lookup req.password = some exp ∧ now ≤ exp) →
        route_p2p_dial sessions cookie invites queue now req =
          (.error ⟨401, "invalid or expired invite"⟩, queue))) := by
  constructor
  · intro e he
    simp [route_p2p_dial, he]
  · intro u hu
    constructor
    · rintro ⟨exp, hexp, hle⟩
      simp [route_p2p_dial, hu, post_p2p_dial, hexp, hle]
    · intro hno
      simp only [route_p2p_dial, hu, post_p2p_dial]
      cases hexp : invites.lookup req.password with
      | none => rfl
      | some exp =>
        have : ¬ now ≤ exp := fun hle => hno ⟨exp, hexp, hle⟩
        simp [this]

/-- C1 (witness): with a valid session cookie and a valid invite password, the
dial route answers 200 and enqueues the address. -/
theorem route_p2p_dial_spec_witness :
    require_auth [("abc", "alice")] "sid=abc" = .ok "alice" ∧
    (∃ exp, List.lookup "p" ([("p", (10 : Int))] : Invites) = some exp ∧ (0 : Int) ≤ exp) ∧
    route_p2p_dial [("abc", "alice")] "sid=abc" [("p", (10 : Int))] [] 0
        ⟨"/ip4/127.0.0.1/tcp/1", "p"⟩ =
      (.ok ⟨"dialing", "/ip4/127.0.0.1/tcp/1"⟩, ["/ip4/127.0.0.1/tcp/1"]) :=
  ⟨rfl, ⟨10, rfl, by decide⟩,
    ((route_p2p_dial_spec [("abc", "alice")] "sid=abc" [("p", (10 : Int))] [] 0
        ⟨"/ip4/127.0.0.1/tcp/1", "p"⟩).2 "alice" rfl).1 ⟨10, rfl, by decide⟩⟩

/-- C4 (code bug): `GET /chunks/a` — an id of fewer than 4 bytes — panics in
`chunk_path` (Rust byte-slice `&id[0..2]` out of bounds) instead of returning
404; the claim that every unknown id gets 404 fails on such ids. -/
theorem get_chunk_short_id_panics :
    chunk_path [97] = none ∧ ∀ fs : Fs, get_chunk fs [97] = .panicked :=
  ⟨rfl, fun _ => rfl⟩

/-- C10: with a valid session, `POST /p2p/invite` while the listener-address
list is empty returns 500 "no p2p address" and leaves the invite map unchanged
(the first address is fetched before the invite is stored). -/
theorem p2p_invite_no_listener_500 (sessions : Sessions) (cookie : String)
    (invites : Invites) (req : InviteReq) (u : String)
    (h : require_auth sessions cookie = .ok u) :
    route_p2p_invite sessions cookie [] invites req =
      (.error ⟨500, "no p2p address"⟩, invites) := by
  simp [route_p2p_invite, h, post_p2p_invite]

/-- C10 (witness): concrete session and invite map. -/
theorem p2p_invite_no_listener_500_witness :
    require_auth [("abc", "alice")] "sid=abc" = .ok "alice" ∧
    route_p2p_invite [("abc", "alice")] "sid=abc" [] [("old", (3 : Int))] ⟨"pw", 9⟩ =
      (.error ⟨500, "no p2p address"⟩, [("old", (3 : Int))]) :=
  ⟨rfl,
    p2p_invite_no_listener_500 [("abc", "alice")] "sid=abc" [("old", (3 : Int))]
      ⟨"pw", 9⟩ "alice" rfl⟩

/-- A row keyed by a different `(peer_id, addr)` never satisfies the
`(pid, addr)` predicate. -/
theorem peerAddrPred_false {pid addr pid' addr' : String}
    (hne : ¬(pid' = pid ∧ addr' = addr)) :
    (pid == pid' && addr == addr') = false := by
  by_cases h1 : pid = pid'
  · by_cases h2 : addr = addr'
    · exact absurd ⟨h1.symm, h2.symm⟩ hne
    · simp [h2]
  · simp [h1]

theorem upsertPA_lookup_self (db : PeerAddrs) (pid addr : String) (t : Int) :
    lookupPeerAddr (upsert_peer_addr db pid addr t) pid addr = some t := by
  induction db with
  | nil => simp [upsert_peer_addr, lookupPeerAddr, List.find?]
  | cons r rest ih =>
    cases hb : r.1 == pid && r.2.1 == addr with
    | true =>
      simp only [upsert_peer_addr, hb, if_true, lookupPeerAddr, List.find?,
        Option.map_some']
    | false =>
      simp only [upsert_peer_addr, hb, Bool.false_eq_true, if_false,
        lookupPeerAddr, List.find?]
      exact ih

theorem upsertPA_lookup_other (db : PeerAddrs) (pid addr : String) (t : Int)
    (pid' addr' : String) (hne : ¬(pid' = pid ∧ addr' = addr)) :
    lookupPeerAddr (upsert_peer_addr db pid addr t) pid' addr' =
      lookupPeerAddr db pid' addr' := by
  have hne' : (pid == pid' && addr == addr') = false := peerAddrPred_false hne
  induction db with
  | nil =>
    simp only [upsert_peer_addr, lookupPeerAddr, List.find?, hne']
  | cons r rest ih =>
    cases hb : r.1 == pid && r.2.1 == addr with
    | true =>
      have hp : r.1 = pid := by simpa using ((Bool.and_eq_true _ _).mp hb).1
      have ha : r.2.1 = addr := by simpa using ((Bool.and_eq_true _ _).mp hb).2
      have hh : (r.1 == pid' && r.2.1 == addr') = false := by
        rw [hp, ha]; exact hne'
      simp only [upsert_peer_addr, hb, if_true, lookupPeerAddr, List.find?, hh]
    | false =>
      cases hh : r.1 == pid' && r.2.1 == addr' with
      | true =>
        simp only [upsert_peer_addr, hb, Bool.false_eq_true, if_false,
          lookupPeerAddr, List.find?, hh]
      | false =>
        simp only [upsert_peer_addr, hb, Bool.false_eq_true, if_false,
          lookupPeerAddr, List.find?, hh]
        exact ih

/-- C8 (counterexample): `upsert_peer_addr` overwrites `last_seen`
unconditionally (`SET last_seen = excluded.last_seen`), so a call with an older
timestamp DECREASES the stored `last_seen`: from 5 to 3 here.  The claimed
monotonicity without a precondition on `t` fails. -/
theorem upsert_peer_addr_counterexample :
    lookupPeerAddr [("p", "a", (5 : Int))] "p" "a" = some 5 ∧
    lookupPeerAddr (upsert_peer_addr [("p", "a", (5 : Int))] "p" "a" 3) "p" "a" = some 3 ∧
    ¬((5 : Int) ≤ 3) := by
  refine ⟨rfl, rfl, by decide⟩

/-- C8 (amended): after `upsert_peer_addr(peer_id, addr, t)` the row's
`last_seen` equals exactly `t` (and every other row is untouched); the stored
value is therefore non-decreasing only when `t` is at least the previous value,
as in the spec's §8.5 formulation with non-decreasing timestamps. -/
theorem upsert_peer_addr_sets_last_seen (db : PeerAddrs) (pid addr : String) (t : Int) :
    lookupPeerAddr (upsert_peer_addr db pid addr t) pid addr = some t ∧
    (∀ pid' addr', ¬(pid' = pid ∧ addr' = addr) →
      lookupPeerAddr (upsert_peer_addr db pid addr t) pid' addr' =
        lookupPeerAddr db pid' addr') :=
  ⟨upsertPA_lookup_self db pid addr t,
   fun pid' addr' hne => upsertPA_lookup_other db pid addr t pid' addr' hne⟩

/-- C8 (witness): updating one row leaves another row's `last_seen` intact and
sets the target row to the new timestamp. -/
theorem upsert_peer_addr_sets_last_seen_witness :
    lookupPeerAddr (upsert_peer_addr [("q", "b", (7 : Int))] "p" "a" 2) "p" "a" = some 2 ∧
    lookupPeerAddr (upsert_peer_addr [("q", "b", (7 : Int))] "p" "a" 2) "q" "b" =
      lookupPeerAddr [("q", "b", (7 : Int))] "q" "b" :=
  ⟨(upsert_peer_addr_sets_last_seen [("q", "b", (7 : Int))] "p" "a" 2).1,
   (upsert_peer_addr_sets_last_seen [("q", "b", (7 : Int))] "p" "a" 2).2 "q" "b"
     (by simp)⟩

theorem setLK_preserves_created (lk : LocalKeys) (name : String) (kb : List Nat)
    (ts : Int) (k0 : List Nat) (c0 : Int)
    (h : lookupLocalKey lk name = some (k0, c0)) :
    lookupLocalKey (set_local_key lk name kb ts) name = some (kb, c0) := by
  induction lk with
  | nil => simp [lookupLocalKey] at h
  | cons r rest ih =>
    cases hb : r.1 == name with
    | true =>
      simp only [lookupLocalKey, List.find?, hb, Option.map_some'] at h
      simp only [set_local_key, hb, if_true, lookupLocalKey, List.find?,
        Option.map_some']
      rw [Option.some.injEq] at h
      rw [show r.2.2 = c0 from by rw [h]]
    | false =>
      simp only [lookupLocalKey, List.find?, hb] at h
      simp only [set_local_key, hb, Bool.false_eq_true, if_false,
        lookupLocalKey, List.find?]
      exact ih h

theorem upsertUser_preserves_created (db : Users) (u : String) (hash salt : List Nat)
    (cts : Int) (ets : Option Int) (row : UserRow) (h : get_user db u = some row) :
    get_user (upsert_user db u hash salt cts ets) u =
      some ⟨row.username, hash, salt, row.created_ts, ets⟩ := by
  induction db with
  | nil => simp [get_user] at h
  | cons r rest ih =>
    cases hb : r.username == u with
    | true =>
      simp only [get_user, List.find?, hb] at h
      rw [Option.some.injEq] at h
      simp only [upsert_user, hb, if_true, get_user, List.find?]
      rw [h]
    | false =>
      simp only [get_user, List.find?, hb] at h
      simp only [upsert_user, hb, Bool.false_eq_true, if_false, get_user,
        List.find?]
      exact ih h

/-- C9: on a key conflict `set_local_key` rewrites only the key bytes and
`upsert_user` rewrites only `pwd_hash`, `salt` and `expires_ts`: in both cases
the stored `created_ts` stays the original row's, even though the caller passes
a fresh `created_ts`. -/
theorem conflict_preserves_created_ts :
    (∀ (lk : LocalKeys) (name : String) (kb : List Nat) (ts : Int) (k0 : List Nat) (c0 : Int),
      lookupLocalKey lk name = some (k0, c0) →
        lookupLocalKey (set_local_key lk name kb ts) name = some (kb, c0)) ∧
    (∀ (db : Users) (u : String) (hash salt : List Nat) (cts : Int) (ets : Option Int)
      (row : UserRow), get_user db u = some row →
        get_user (upsert_user db u hash salt cts ets) u =
          some ⟨row.username, hash, salt, row.created_ts, ets⟩) :=
  ⟨fun lk name kb ts k0 c0 h => setLK_preserves_created lk name kb ts k0 c0 h,
   fun db u hash salt cts ets row h => upsertUser_preserves_created db u hash salt cts ets row h⟩

/-- C9 (witness): a conflicting `set_local_key` and `upsert_user` on concrete
rows keep the original `created_ts` values 100 and 200. -/
theorem conflict_preserves_created_ts_witness :
    lookupLocalKey (set_local_key [("node", [1, 2], (100 : Int))] "node" [9] 555) "node" =
      some ([9], 100) ∧
    get_user (upsert_user [⟨"alice", [1], [2], 200, none⟩] "alice" [7] [8] 556 (some 9))
        "alice" = some ⟨"alice", [7], [8], 200, some 9⟩ :=
  ⟨conflict_preserves_created_ts.1 [("node", [1, 2], (100 : Int))] "node" [9] 555 [1, 2] 100 rfl,
   conflict_preserves_created_ts.2 [⟨"alice", [1], [2], 200, none⟩] "alice" [7] [8] 556
     (some 9) ⟨"alice", [1], [2], 200, none⟩ rfl⟩

/-- C7 (counterexample): a whitespace-only username is NON-empty, yet
`post_set_password` rejects it with 400, because the code tests
`username.trim().is_empty()` rather than emptiness of the username itself. -/
theorem post_set_password_counterexample :
    (" " : String) ≠ "" ∧ ¬((utf8Bytes "password1").length < 8) ∧
    post_set_password (fun _ _ => []) "s" [] 0 ⟨" ", "password1", none⟩ =
      .error ⟨400, "username and 8+ char password required"⟩ :=
  ⟨by decide, by decide, rfl⟩

/-- C7 (amended): `POST /auth/set_password` returns 400 exactly when the
TRIMMED username is empty or the password is shorter than 8 bytes; otherwise it
persists the user row through `upsert_user`. -/
theorem post_set_password_spec (hashFn : String → String → List Nat) (saltStr : String)
    (db : Users) (ts : Int) (req : SetPasswordReq) :
    (post_set_password hashFn saltStr db ts req =
        .error ⟨400, "username and 8+ char password required"⟩ ↔
      (rustTrim req.username.data = [] ∨ (utf8Bytes req.password).length < 8)) ∧
    (¬(rustTrim req.username.data = [] ∨ (utf8Bytes req.password).length < 8) →
      post_set_password hashFn saltStr db ts req =
        .ok (upsert_user db req.username (hashFn req.password saltStr)
          (utf8Bytes saltStr) ts req.expires_ts)) := by
  constructor
  · constructor
    · intro h
      by_cases hc : rustTrim req.username.data = [] ∨ (utf8Bytes req.password).length < 8
      · exact hc
      · rw [post_set_password, if_neg hc] at h
        exact Except.noConfusion h
    · intro hc
      simp only [post_set_password, if_pos hc]
  · intro hc
    simp only [post_set_password, if_neg hc]

/-- C7 (witness): a regular username and an 8+ byte password are accepted and
stored. -/
theorem post_set_password_spec_witness :
    ¬(rustTrim ("alice" : String).data = [] ∨ (utf8Bytes "password1").length < 8) ∧
    post_set_password (fun _ _ => [7]) "s" [] 0 ⟨"alice", "password1", none⟩ =
      .ok (upsert_user [] "alice" [7] (utf8Bytes "s") 0 none) :=
  ⟨by decide,
   (post_set_password_spec (fun _ _ => [7]) "s" [] 0 ⟨"alice", "password1", none⟩).2
     (by decide)⟩

/-- The single evaluation fact about `upload_file` on a non-empty input: the
chunk file is written at the sharded path of the digest and the manifest is the
one-chunk record with the two casts of the length. -/
theorem upload_file_eq (fs : Fs) (B : List Nat) (mime : Option String)
    (created : Int) (h : B ≠ []) :
    upload_file fs B mime created = .ok
      (([(chunk_id B).take 2, ((chunk_id B).drop 2).take 2, chunk_id B], B) :: fs)
      { total_size := B.length % 18446744073709551616,
        chunks := [{ id := chunk_id B, size := B.length % 4294967296 }],
        mime := mime, created_ts := created } := by
  simp only [upload_file, if_neg h, chunk_path_chunk_id]

/-- C2: for every non-empty byte string `B`, `POST /upload` succeeds with a
manifest whose chunk list is exactly one entry, its id the lowercase 64-hex
BLAKE3 digest of `B`; reading `GET /chunks/<that id>` from the resulting store
returns 200 with exactly `B`. -/
theorem upload_roundtrip_content_addressing (fs : Fs) (B : List Nat)
    (mime : Option String) (created : Int) (h : B ≠ []) :
    ∃ fs', upload_file fs B mime created = .ok fs'
        { total_size := B.length % 18446744073709551616,
          chunks := [{ id := chunk_id B, size := B.length % 4294967296 }],
          mime := mime, created_ts := created } ∧
      chunk_id B = hexOfBytes (blake3Hash B) ∧
      (chunk_id B).length = 64 ∧
      (∀ d ∈ chunk_id B, (48 ≤ d ∧ d ≤ 57) ∨ (97 ≤ d ∧ d ≤ 102)) ∧
      get_chunk fs' (chunk_id B) = .found B := by
  refine ⟨([(chunk_id B).take 2, ((chunk_id B).drop 2).take 2, chunk_id B], B) :: fs,
    upload_file_eq fs B mime created h, rfl, chunk_id_length B,
    hexOfBytes_mem (blake3Hash B), ?_⟩
  simp only [get_chunk, chunk_path_chunk_id, List.lookup, beq_self_eq_true]

set_option maxRecDepth 100000 in
/-- C2 (witness): uploading the bytes of "hello" produces the digest from the
spec's concrete scenario, `ea8f163d…67200f`, and the roundtrip holds there. -/
theorem upload_roundtrip_witness :
    ([104, 101, 108, 108, 111] : List Nat) ≠ [] ∧
    chunk_id [104, 101, 108, 108, 111] =
      ("ea8f163db38682925e4491c5e58d4bb3506ef8c14eb78a86e908c5624a67200f" : String).data.map
        Char.toNat ∧
    (∃ fs', upload_file [] [104, 101, 108, 108, 111] none 0 = .ok fs'
        { total_size := 5, chunks := [{ id := chunk_id [104, 101, 108, 108, 111], size := 5 }],
          mime := none, created_ts := 0 } ∧
      chunk_id [104, 101, 108, 108, 111] = hexOfBytes (blake3Hash [104, 101, 108, 108, 111]) ∧
      (chunk_id [104, 101, 108, 108, 111]).length = 64 ∧
      (∀ d ∈ chunk_id [104, 101, 108, 108, 111], (48 ≤ d ∧ d ≤ 57) ∨ (97 ≤ d ∧ d ≤ 102)) ∧
      get_chunk fs' (chunk_id [104, 101, 108, 108, 111]) = .found [104, 101, 108, 108, 111]) :=
  ⟨by decide, by decide,
   upload_roundtrip_content_addressing [] [104, 101, 108, 108, 111] none 0 (by decide)⟩

/-- At any input length exactly `2^32` the chunk `size` wraps to 0 while
`total_size` does not. -/
theorem upload_size_sum_wraps (B : List Nat) (mime : Option String) (created : Int)
    (hlen : B.length = 4294967296) :
    ∃ fs man, upload_file [] B mime created = .ok fs man ∧
      (man.chunks.map ChunkRef.size).sum = 0 ∧ man.total_size = 4294967296 ∧
      (man.chunks.map ChunkRef.size).sum ≠ man.total_size := by
  have h : B ≠ [] := by
    intro hcon
    rw [hcon] at hlen
    simp at hlen
  refine ⟨_, _, upload_file_eq [] B mime created h, ?_, ?_, ?_⟩
  · simp only [List.map_cons, List.map_nil, List.sum_cons, List.sum_nil,
      Nat.add_zero]
    rw [hlen]
  · show B.length % 18446744073709551616 = 4294967296
    rw [hlen]
  · simp only [List.map_cons, List.map_nil, List.sum_cons, List.sum_nil,
      Nat.add_zero]
    rw [hlen]
    omega

/-- C3 (counterexample): at `|B| = 2^32` (B = 2^32 zero bytes) the sole chunk's
`size` (`len as u32`) wraps to 0 while `total_size` (`len as u64`) is `2^32`,
so the sum of the chunk sizes differs from `total_size`. -/
theorem manifest_size_sum_counterexample :
    ∃ fs man, upload_file [] (List.replicate 4294967296 0) none 0 = .ok fs man ∧
      (man.chunks.map ChunkRef.size).sum = 0 ∧ man.total_size = 4294967296 ∧
      (man.chunks.map ChunkRef.size).sum ≠ man.total_size :=
  upload_size_sum_wraps (List.replicate 4294967296 0) none 0
    (by rw [List.length_replicate])

/-- C3 (amended): the sum of the manifest's chunk sizes equals `total_size`
whenever `|B| < 2^32`; the `size` field is the u32 cast of the length, so at or
above `2^32` the sum is `|B| mod 2^32` and the equality fails. -/
theorem manifest_size_sum (fs : Fs) (B : List Nat) (mime : Option String)
    (created : Int) (h : B ≠ []) (hlen : B.length < 4294967296) :
    ∃ fs' man, upload_file fs B mime created = .ok fs' man ∧
      (man.chunks.map ChunkRef.size).sum = man.total_size := by
  refine ⟨_, _, upload_file_eq fs B mime created h, ?_⟩
  simp only [List.map_cons, List.map_nil, List.sum_cons, List.sum_nil, Nat.add_zero]
  rw [Nat.mod_eq_of_lt hlen, Nat.mod_eq_of_lt (lt_trans hlen (by norm_num))]

/-- C3 (witness): the 5-byte upload has sum of sizes 5 = total_size. -/
theorem manifest_size_sum_witness :
    ([104, 101, 108, 108, 111] : List Nat) ≠ [] ∧
    ([104, 101, 108, 108, 111] : List Nat).length < 4294967296 ∧
    (∃ fs' man, upload_file [] [104, 101, 108, 108, 111] none 0 = .ok fs' man ∧
      (man.chunks.map ChunkRef.size).sum = man.total_size) :=
  ⟨by decide, by decide,
   manifest_size_sum [] [104, 101, 108, 108, 111] none 0 (by decide) (by decide)⟩

theorem toI64_of_lt {k : Nat} (hk : k < 9223372036854775808) : toI64 k = (k : Int) := by
  have hmod : k % 18446744073709551616 = k :=
    Nat.mod_eq_of_lt (lt_trans hk (by norm_num))
  unfold toI64
  rw [hmod, if_pos hk]

/-- With an in-range limit the query takes `k` of the sorted filtered rows. -/
theorem recentSelection_of_lt (db : PeerAddrs) (k : Nat) (m : Option Int)
    (hk : k < 9223372036854775808) :
    recentSelection db k m =
      ((match m with
        | some mv => db.filter (fun r : String × String × Int => mv ≤ r.2.2)
        | none => db).insertionSort laterFirst).take k := by
  have ht := toI64_of_lt hk
  have hneg : ¬ (k : Int) < 0 := not_lt.mpr (Int.natCast_nonneg k)
  simp only [recentSelection, ht, if_neg hneg, Int.toNat_natCast]

/-- C5 (counterexample): the limit is passed to SQLite as `limit as i64`; for
`k = 2^63` that cast is negative and SQLite then ignores the LIMIT clause, so a
table with `2^63 + 1` rows yields MORE than `k` rows. -/
theorem recent_limit_ignored (db : PeerAddrs)
    (hdb : db.length = 9223372036854775809) :
    ¬((get_recent_peer_addrs db 9223372036854775808 none).length ≤
        9223372036854775808) := by
  have ht : toI64 9223372036854775808 < 0 := by decide
  simp only [get_recent_peer_addrs, recentSelection, if_pos ht, List.length_map,
    List.length_insertionSort]
  rw [hdb]
  omega

/-- C5 (counterexample, instantiated): a concrete table of `2^63 + 1` identical
rows and `k = 2^63` refute "at most `k` rows" as claimed for every `k`. -/
theorem get_recent_peer_addrs_counterexample :
    ¬((get_recent_peer_addrs (List.replicate 9223372036854775809 ("p", "a", (0 : Int)))
        9223372036854775808 none).length ≤ 9223372036854775808) :=
  recent_limit_ignored _ (by rw [List.length_replicate])

/-- C5 (amended): for every limit `k < 2^63` (so that the `i64` cast is
non-negative) the query returns at most `k` rows, every selected row has
`last_seen ≥ min` when a threshold is given, the selection is ordered
non-increasing by `last_seen`, and the returned pairs are its
`(peer_id, addr)` projections. -/
theorem get_recent_peer_addrs_spec (db : PeerAddrs) (k : Nat) (m : Option Int)
    (hk : k < 9223372036854775808) :
    (get_recent_peer_addrs db k m).length ≤ k ∧
    (∀ mv, m = some mv → ∀ r ∈ recentSelection db k m, mv ≤ r.2.2) ∧
    List.Sorted laterFirst (recentSelection db k m) ∧
    get_recent_peer_addrs db k m = (recentSelection db k m).map (fun r => (r.1, r.2.1)) := by
  have hsel := recentSelection_of_lt db k m hk
  refine ⟨?_, ?_, ?_, rfl⟩
  · simp only [get_recent_peer_addrs, List.length_map, hsel]
    exact List.length_take_le k _
  · intro mv hm r hr
    subst hm
    rw [hsel] at hr
    have hr' : r ∈ (db.filter (fun r => mv ≤ r.2.2)).insertionSort laterFirst :=
      List.take_subset k _ hr
    rw [List.mem_insertionSort] at hr'
    exact of_decide_eq_true (List.mem_filter.mp hr').2
  · rw [hsel]
    exact ((List.sorted_insertionSort laterFirst _).sublist (List.take_sublist k _))

/-- C5 (witness): a two-row table with limit 1 and threshold 6. -/
theorem get_recent_peer_addrs_spec_witness :
    1 < 9223372036854775808 ∧
    (get_recent_peer_addrs [("p1", "a1", (5 : Int)), ("p2", "a2", 7)] 1 (some 6)).length ≤ 1 :=
  ⟨by norm_num,
   (get_recent_peer_addrs_spec [("p1", "a1", (5 : Int)), ("p2", "a2", 7)] 1 (some 6)
     (by norm_num)).1⟩

/-- C6: `POST /auth/login` answers 401 when the user row is absent, when
`expires_ts` is set with `now > expires_ts`, and when the Argon2 hash of the
submitted password over the stored salt differs from the stored hash bytes; in
the remaining case (with the stored salt decodable, as every row written by
set_password is) it answers 200 and installs the fresh session id — the
URL-safe unpadded base64 of the 32 random bytes, hence 43 characters with no
padding — mapping to the username.  And after `set_user_expiry(u, t)` with
`t < now`, login for `u` answers 401. -/
theorem post_login_spec (argon : String → String → List Nat)
    (saltDecode : List Nat → Option String) (db : Users) (sessions : Sessions)
    (sidBytes : List Nat) (now : Int) (req : LoginReq) :
    (get_user db req.username = none →
      post_login argon saltDecode db sessions sidBytes now req =
        .error ⟨401, "invalid credentials"⟩) ∧
    (∀ user exp, get_user db req.username = some user →
      user.expires_ts = some exp → now > exp →
      post_login argon saltDecode db sessions sidBytes now req =
        .error ⟨401, "password expired"⟩) ∧
    (∀ user s, get_user db req.username = some user →
      loginExpired user.expires_ts now = false → saltDecode user.salt = some s →
      argon req.password s ≠ user.pwd_hash →
      post_login argon saltDecode db sessions sidBytes now req =
        .error ⟨401, "invalid credentials"⟩) ∧
    (∀ user s, get_user db req.username = some user →
      loginExpired user.expires_ts now = false → saltDecode user.salt = some s →
      argon req.password s = user.pwd_hash →
      post_login argon saltDecode db sessions sidBytes now req =
        .ok ((b64url sidBytes, req.username) :: sessions, b64url sidBytes)) ∧
    (sidBytes.length = 32 →
      (b64url sidBytes).data.length = 43 ∧
      ∀ c ∈ (b64url sidBytes).data, c ∈ b64Alphabet.data ∧ c ≠ '=') ∧
    (∀ t, t < now →
      ∃ msg, post_login argon saltDecode (set_user_expiry db req.username (some t))
        sessions sidBytes now req = .error ⟨401, msg⟩) := by
  refine ⟨?_, ?_, ?_, ?_, ?_, ?_⟩
  · intro h
    simp [post_login, h]
  · intro user exp hu he hgt
    have hexp : loginExpired user.expires_ts now = true := by
      rw [he]
      simpa [loginExpired] using hgt
    simp [post_login, hu, hexp]
  · intro user s hu hexp hsalt hneq
    simp [post_login, hu, hexp, hsalt, hneq]
  · intro user s hu hexp hsalt heq
    simp [post_login, hu, hexp, hsalt, heq]
  · intro h32
    constructor
    · show (b64urlChars sidBytes).length = 43
      rw [b64urlChars_length, h32]
    · intro c hc
      have hmem := b64urlChars_mem sidBytes c hc
      have hne : ('=' : Char) ∉ b64Alphabet.data := by decide
      exact ⟨hmem, fun hceq => hne (hceq ▸ hmem)⟩
  · intro t ht
    have hgt : now > t := ht
    cases hu : get_user db req.username with
    | none =>
      have h2 : get_user (set_user_expiry db req.username (some t)) req.username = none := by
        rw [get_user_set_user_expiry, hu]
        rfl
      exact ⟨"invalid credentials", by simp [post_login, h2]⟩
    | some user =>
      have h2 : get_user (set_user_expiry db req.username (some t)) req.username =
          some { user with expires_ts := some t } := by
        rw [get_user_set_user_expiry, hu]
        rfl
      have hexp : loginExpired ({ user with expires_ts := some t } : UserRow).expires_ts
          now = true := by
        simpa [loginExpired] using hgt
      exact ⟨"password expired", by simp [post_login, h2, hexp]⟩

/-- C6 (witness): a concrete user row, matching hash and a 32-byte session id:
login succeeds, installs the 43-character unpadded session id, and after an
expiry in the past the same login is rejected 401. -/
theorem post_login_spec_witness :
    get_user [⟨"alice", [1], [115], 0, none⟩] "alice" =
      some ⟨"alice", [1], [115], 0, none⟩ ∧
    post_login (fun _ _ => [1]) (fun _ => some "s") [⟨"alice", [1], [115], 0, none⟩]
        [] (List.replicate 32 0) 0 ⟨"alice", "pw"⟩ =
      .ok ([(b64url (List.replicate 32 0), "alice")], b64url (List.replicate 32 0)) ∧
    (b64url (List.replicate 32 0)).data.length = 43 ∧
    (∃ msg, post_login (fun _ _ => [1]) (fun _ => some "s")
        (set_user_expiry [⟨"alice", [1], [115], 0, none⟩] "alice" (some (-5)))
        [] (List.replicate 32 0) 0 ⟨"alice", "pw"⟩ = .error ⟨401, msg⟩) :=
  ⟨rfl,
   (post_login_spec (fun _ _ => [1]) (fun _ => some "s") [⟨"alice", [1], [115], 0, none⟩]
       [] (List.replicate 32 0) 0 ⟨"alice", "pw"⟩).2.2.2.1
     ⟨"alice", [1], [115], 0, none⟩ "s" rfl rfl rfl rfl,
   ((post_login_spec (fun _ _ => [1]) (fun _ => some "s") [⟨"alice", [1], [115], 0, none⟩]
       [] (List.replicate 32 0) 0 ⟨"alice", "pw"⟩).2.2.2.2.1 (by decide)).1,
   (post_login_spec (fun _ _ => [1]) (fun _ => some "s") [⟨"alice", [1], [115], 0, none⟩]
       [] (List.replicate 32 0) 0 ⟨"alice", "pw"⟩).2.2.2.2.2 (-5) (by decide)⟩

end PuppyCloud
